import Mathlib

/-!
Verification of the AgentFleet self-healing-robots motion-coordination core.

Shallow embedding of the C++ sources:
  * `src/hal/include/collision_checker.hpp`, `src/hal/src/collision_checker.cpp`
  * `src/hal/include/robot_hal.hpp`,       `src/hal/src/robot_hal.cpp`
  * `src/hal/src/path_smoother.cpp`

Modelling conventions:
  * `double` arithmetic that never leaves the field operations is modelled
    over `ℚ` (exact field arithmetic), keeping every definition computable;
  * functions that apply `std::sqrt` / `std::acos` are modelled over `ℝ`
    with `Real.sqrt` / `Real.arccos`;
  * `std::map` iteration is modelled by association lists, `std::map::find`
    by `List.lookup`;
  * the standalone (non-ROS) build of `RobotHAL` is modelled: a published
    command is "forwarded" when it reaches the logging/transport branch, and
    the pseudo-random draw used by the packet-drop fault is passed in
    explicitly.
-/

namespace AgentFleet

/-! ## Collision checker: grid rounding and fleet conflicts -/

/-- `CollisionChecker::to_grid`: `static_cast<int>(std::round(coord))`.
`std::round` rounds to the nearest integer with ties away from zero. -/
def to_grid (coord : ℚ) : ℤ :=
  if coord < 0 then -⌊-coord + 1/2⌋ else ⌊coord + 1/2⌋

/-- `CollisionChecker::check_path_conflict`: iterate over `fleet_positions`
(an association list standing for the `std::map`); skip the entry whose key
is `robot_id`; report a conflict as soon as another robot's rounded current
position, or its rounded entry in `fleet_targets` (if any), equals the
rounded candidate target. -/
def check_path_conflict (robot_id : String) (target_x target_y : ℚ)
    (fleet_positions fleet_targets : List (String × ℚ × ℚ)) : Bool :=
  let tx := to_grid target_x
  let ty := to_grid target_y
  fleet_positions.any fun entry =>
    if entry.1 = robot_id then false
    else if to_grid entry.2.1 = tx ∧ to_grid entry.2.2 = ty then true
    else
      match fleet_targets.lookup entry.1 with
      | some tgt => decide (to_grid tgt.1 = tx ∧ to_grid tgt.2 = ty)
      | none => false

/-- `StickyZone` from `collision_checker.hpp`, with its default member
initializers. -/
structure StickyZone where
  x_min : ℤ := 5
  x_max : ℤ := 7
  y_min : ℤ := 5
  y_max : ℤ := 7
  deriving DecidableEq, Repr

/-- `StickyZone::contains`:
`x >= x_min && x <= x_max && y >= y_min && y <= y_max`. -/
def StickyZone.contains (z : StickyZone) (x y : ℝ) : Prop :=
  (z.x_min : ℝ) ≤ x ∧ x ≤ (z.x_max : ℝ) ∧ (z.y_min : ℝ) ≤ y ∧ y ≤ (z.y_max : ℝ)

/-- `GridConfig` from `collision_checker.hpp`, with its default member
initializers. -/
structure GridConfig where
  width : ℤ := 10
  height : ℤ := 10
  cell_size : ℝ := 1

/-- The data members of `CollisionChecker` (default-constructed values are
the structs' defaults). -/
structure CollisionChecker where
  grid : GridConfig := {}
  sticky_zone : StickyZone := {}

/-- `CollisionChecker::is_in_sticky_zone`: delegates to
`StickyZone::contains`. -/
def is_in_sticky_zone (c : CollisionChecker) (x y : ℝ) : Prop :=
  c.sticky_zone.contains x y

/-- `CollisionChecker::is_in_bounds`:
`x >= 0 && x < grid_.width && y >= 0 && y < grid_.height`. -/
def is_in_bounds (c : CollisionChecker) (x y : ℝ) : Prop :=
  0 ≤ x ∧ x < (c.grid.width : ℝ) ∧ 0 ≤ y ∧ y < (c.grid.height : ℝ)

open scoped Classical in
/-- `CollisionChecker::distance_to_sticky_zone`: inside the zone, the
negative of the minimum of the four edge distances; outside, the Euclidean
distance to the rectangle computed from the clamped axis offsets. -/
noncomputable def distance_to_sticky_zone (c : CollisionChecker) (x y : ℝ) : ℝ :=
  if is_in_sticky_zone c x y then
    -min (min (x - (c.sticky_zone.x_min : ℝ)) ((c.sticky_zone.x_max : ℝ) - x))
         (min (y - (c.sticky_zone.y_min : ℝ)) ((c.sticky_zone.y_max : ℝ) - y))
  else
    let dx : ℝ :=
      if x < (c.sticky_zone.x_min : ℝ) then (c.sticky_zone.x_min : ℝ) - x
      else if x > (c.sticky_zone.x_max : ℝ) then x - (c.sticky_zone.x_max : ℝ)
      else 0
    let dy : ℝ :=
      if y < (c.sticky_zone.y_min : ℝ) then (c.sticky_zone.y_min : ℝ) - y
      else if y > (c.sticky_zone.y_max : ℝ) then y - (c.sticky_zone.y_max : ℝ)
      else 0
    Real.sqrt (dx * dx + dy * dy)

open scoped Classical in
/-- `is_sharp_turn` from `path_smoother.cpp`: form the direction vectors
`p1→p2` and `p2→p3`; if either has length below `1e-9` return false;
otherwise normalize, clamp the dot product to `[-1, 1]`, and report whether
`acos` of it exceeds the threshold. -/
noncomputable def is_sharp_turn (p1 p2 p3 : ℝ × ℝ) (threshold : ℝ) : Prop :=
  let v1x := p2.1 - p1.1
  let v1y := p2.2 - p1.2
  let v2x := p3.1 - p2.1
  let v2y := p3.2 - p2.2
  let len1 := Real.sqrt (v1x * v1x + v1y * v1y)
  let len2 := Real.sqrt (v2x * v2x + v2y * v2y)
  if len1 < 1 / 1000000000 ∨ len2 < 1 / 1000000000 then False
  else
    Real.arccos (max (-1)
      (min 1 ((v1x / len1) * (v2x / len2) + (v1y / len1) * (v2y / len2)))) > threshold

/-- The distance of two consecutive waypoints as computed throughout
`path_smoother.cpp`: `std::sqrt(dx*dx + dy*dy)`. -/
noncomputable def segLen (a b : ℝ × ℝ) : ℝ :=
  Real.sqrt ((b.1 - a.1) * (b.1 - a.1) + (b.2 - a.2) * (b.2 - a.2))

/-- `path_length`: sum of Euclidean distances between consecutive
waypoints; `0` for fewer than 2 points. -/
noncomputable def path_length : List (ℝ × ℝ) → ℝ
  | a :: b :: rest => segLen a b + path_length (b :: rest)
  | _ => 0

/-- `static_cast<int>` of a `double`: truncation toward zero. -/
noncomputable def truncToInt (x : ℝ) : ℤ := if x < 0 then ⌈x⌉ else ⌊x⌋

open scoped Classical in
/-- The inner `while` loop of `resample_path` for one segment: while the
accumulated length plus the current segment length reaches `next_target`
and the point budget is not exhausted (`fuel`, standing for
`num_points - 1 - result.size()`), emit the linear interpolation at
`t = (next_target - accumulated) / segment_length` and advance the target.
Returns the emitted points and the final `next_target`. -/
noncomputable def resampleEmit (a : ℝ × ℝ) (dx dy seg_len accumulated target_spacing : ℝ) :
    ℝ → ℕ → List (ℝ × ℝ) × ℝ
  | next_target, 0 => ([], next_target)
  | next_target, fuel + 1 =>
    if accumulated + seg_len ≥ next_target then
      let t := (next_target - accumulated) / seg_len
      let r := resampleEmit a dx dy seg_len accumulated target_spacing
        (next_target + target_spacing) fuel
      ((a.1 + t * dx, a.2 + t * dy) :: r.1, r.2)
    else ([], next_target)

/-- The outer `while (segment < waypoints.size() - 1)` loop of
`resample_path`, walking the segment list while threading `accumulated`,
`next_target` and the growing `result`. -/
noncomputable def resampleWalk (target_spacing : ℝ) (num_points : ℤ) :
    List (ℝ × ℝ) → ℝ → ℝ → List (ℝ × ℝ) → List (ℝ × ℝ)
  | a :: b :: rest, accumulated, next_target, result =>
    let dx := b.1 - a.1
    let dy := b.2 - a.2
    let seg_len := Real.sqrt (dx * dx + dy * dy)
    let r := resampleEmit a dx dy seg_len accumulated target_spacing next_target
      ((num_points - 1 - result.length).toNat)
    resampleWalk target_spacing num_points (b :: rest) (accumulated + seg_len) r.2
      (result ++ r.1)
  | _, _, _, result => result

open scoped Classical in
/-- `resample_path`: unchanged below 2 waypoints; otherwise
`num_points = max(2, int(total_length / target_spacing) + 1)`, the first
waypoint, the walk's emissions, and the final waypoint appended when its
coordinates differ from the last emitted point's. -/
noncomputable def resample_path (waypoints : List (ℝ × ℝ)) (target_spacing : ℝ) :
    List (ℝ × ℝ) :=
  if waypoints.length < 2 then waypoints
  else
    let total_length := path_length waypoints
    let num_points : ℤ := max 2 (truncToInt (total_length / target_spacing) + 1)
    let result := resampleWalk target_spacing num_points waypoints 0 target_spacing
      [waypoints.getD 0 (0, 0)]
    if (result.getLastD (0, 0)).1 ≠ (waypoints.getLastD (0, 0)).1 ∨
        (result.getLastD (0, 0)).2 ≠ (waypoints.getLastD (0, 0)).2 then
      result ++ [waypoints.getLastD (0, 0)]
    else result

/-- Embedding of a planar point into `ℂ`, used to transfer the metric
triangle inequality to `segLen`. -/
noncomputable def toC (p : ℝ × ℝ) : ℂ := ⟨p.1, p.2⟩

/-! ## RobotHAL state machine -/

/-- `FaultState` from `robot_hal.hpp`. -/
inductive FaultState where
  | NONE
  | MOTOR_TIMEOUT
  | PACKET_DROP
  | SENSOR_FREEZE
  deriving DecidableEq, Repr

/-- `RobotStatus` from `robot_hal.hpp`. -/
inductive RobotStatus where
  | IDLE
  | NAVIGATING
  | STUCK
  | RECOVERING
  | FAULT
  deriving DecidableEq, Repr

/-- The mutable fields of a `RobotHAL` instance (standalone build):
pose, target, status, fault and connectivity. -/
structure RobotHALState where
  robot_id : String
  pose_x : ℚ := 0
  pose_y : ℚ := 0
  yaw : ℚ := 0
  target_x : ℚ := 0
  target_y : ℚ := 0
  status : RobotStatus := RobotStatus.IDLE
  fault_state : FaultState := FaultState.NONE
  connected : Bool := true
  deriving DecidableEq, Repr

/-- `RobotHAL::publish_cmd_vel` (standalone build).  `rand` is the value the
`uniform_real_distribution<>{0,1}` draw would produce for the packet-drop
branch.  Returns the C++ `bool` result together with the command forwarded to
the transport (`none` when the command is blocked or dropped).  The function
mutates no state. -/
def publish_cmd_vel (st : RobotHALState) (linear_x angular_z : ℚ) (rand : ℚ) :
    Bool × Option (ℚ × ℚ) :=
  if st.fault_state = FaultState.MOTOR_TIMEOUT then (false, none)
  else if st.fault_state = FaultState.PACKET_DROP ∧ rand < 1/2 then (false, none)
  else (true, some (linear_x, angular_z))

/-- `RobotHAL::stop`: `publish_cmd_vel(0.0, 0.0)`. -/
def stop (st : RobotHALState) (rand : ℚ) : Bool × Option (ℚ × ℚ) :=
  publish_cmd_vel st 0 0 rand

/-- `RobotHAL::inject_fault`: exact string comparison against the lower-case
and upper-case spelling of each fault identifier; `motor_timeout`
additionally forces `status = FAULT`; any other string only logs and leaves
the state unchanged. -/
def inject_fault (st : RobotHALState) (fault_type : String) : RobotHALState :=
  if fault_type = "motor_timeout" ∨ fault_type = "MOTOR_TIMEOUT" then
    { st with fault_state := FaultState.MOTOR_TIMEOUT, status := RobotStatus.FAULT }
  else if fault_type = "packet_drop" ∨ fault_type = "PACKET_DROP" then
    { st with fault_state := FaultState.PACKET_DROP }
  else if fault_type = "sensor_freeze" ∨ fault_type = "SENSOR_FREEZE" then
    { st with fault_state := FaultState.SENSOR_FREEZE }
  else
    st

/-- `RobotHAL::clear_faults`: reset the fault to `NONE` and, if the status
was `FAULT`, reset it to `IDLE`. -/
def clear_faults (st : RobotHALState) : RobotHALState :=
  if st.status = RobotStatus.FAULT then
    { st with fault_state := FaultState.NONE, status := RobotStatus.IDLE }
  else
    { st with fault_state := FaultState.NONE }

/-- Lower-casing of a string, character by character.  Used only to state
the spec's "case-insensitive comparison" of fault identifiers. -/
def lowerStr (s : String) : String := String.mk (s.data.map Char.toLower)

/-! ## Path smoother (`path_smoother.cpp`), square-root-free functions -/

/-- One Catmull-Rom sample: the basis functions `b0..b3` from
`smooth_path`'s inner loop applied to the four control points. -/
def catmullRomPoint (p0 p1 p2 p3 : ℚ × ℚ) (t : ℚ) : ℚ × ℚ :=
  let t2 := t * t
  let t3 := t2 * t
  let b0 := -(1/2) * t3 + t2 - (1/2) * t
  let b1 := (3/2) * t3 - (5/2) * t2 + 1
  let b2 := -(3/2) * t3 + 2 * t2 + (1/2) * t
  let b3 := (1/2) * t3 - (1/2) * t2
  (b0 * p0.1 + b1 * p1.1 + b2 * p2.1 + b3 * p3.1,
   b0 * p0.2 + b1 * p1.2 + b2 * p2.2 + b3 * p3.2)

/-- `smooth_path`: unchanged below 2 waypoints; linear interpolation with
`points_per_segment + 1` samples for exactly 2; otherwise, per consecutive
pair, `points_per_segment` Catmull-Rom samples with boundary-clamped
control points, plus the final waypoint appended once. -/
def smooth_path (waypoints : List (ℚ × ℚ)) (points_per_segment : ℕ) :
    List (ℚ × ℚ) :=
  if waypoints.length < 2 then waypoints
  else if waypoints.length = 2 then
    (List.range (points_per_segment + 1)).map fun (i : ℕ) =>
      let t : ℚ := (i : ℚ) / (points_per_segment : ℚ)
      let w0 := waypoints.getD 0 (0, 0)
      let w1 := waypoints.getD 1 (0, 0)
      (w0.1 + t * (w1.1 - w0.1), w0.2 + t * (w1.2 - w0.2))
  else
    ((List.range (waypoints.length - 1)).flatMap fun (i : ℕ) =>
      let p0 := if i = 0 then waypoints.getD 0 (0, 0) else waypoints.getD (i - 1) (0, 0)
      let p1 := waypoints.getD i (0, 0)
      let p2 := waypoints.getD (i + 1) (0, 0)
      let p3 := if i = waypoints.length - 2 then waypoints.getD (i + 1) (0, 0)
                else waypoints.getD (i + 2) (0, 0)
      (List.range points_per_segment).map fun (j : ℕ) =>
        catmullRomPoint p0 p1 p2 p3 ((j : ℚ) / (points_per_segment : ℚ)))
    ++ [waypoints.getLast?.getD (0, 0)]

/-- The "avoid duplicates" push of `bezier_smooth`'s inner loop: append the
sampled point unless the result is nonempty and its last element has
bit-identical coordinates. -/
def bezierDedupPush (acc : List (ℚ × ℚ)) (p : ℚ × ℚ) : List (ℚ × ℚ) :=
  if acc = [] ∨ (acc.getLastD (0, 0)).1 ≠ p.1 ∨ (acc.getLastD (0, 0)).2 ≠ p.2 then
    acc ++ [p]
  else acc

/-- The body of `bezier_smooth`'s outer loop for interior index `i`: sample
5 points of the quadratic Bézier from `prev` through `ctrl1` to `curr`
(`t = 1/5 … 5/5`) and push them with deduplication.  (The C++ also computes
`ctrl2_x/ctrl2_y`, which the sampling loop never uses.) -/
def bezierSegment (waypoints : List (ℚ × ℚ)) (tension : ℚ) (i : ℕ)
    (acc : List (ℚ × ℚ)) : List (ℚ × ℚ) :=
  let prev := waypoints.getD (i - 1) (0, 0)
  let curr := waypoints.getD i (0, 0)
  let ctrl1_x := curr.1 - tension * (curr.1 - prev.1)
  let ctrl1_y := curr.2 - tension * (curr.2 - prev.2)
  (List.range 5).foldl (fun acc2 (j : ℕ) =>
    let t : ℚ := ((j : ℚ) + 1) / 5
    bezierDedupPush acc2
      ((1 - t) * (1 - t) * prev.1 + 2 * (1 - t) * t * ctrl1_x + t * t * curr.1,
       (1 - t) * (1 - t) * prev.2 + 2 * (1 - t) * t * ctrl1_y + t * t * curr.2)) acc

/-- `bezier_smooth`: unchanged below 3 waypoints; otherwise the first
waypoint, then the deduplicated Bézier samples for each interior waypoint,
then the final waypoint appended once. -/
def bezier_smooth (waypoints : List (ℚ × ℚ)) (tension : ℚ) : List (ℚ × ℚ) :=
  if waypoints.length < 3 then waypoints
  else
    ((List.range (waypoints.length - 2)).foldl
      (fun acc (k : ℕ) => bezierSegment waypoints tension (k + 1) acc)
      [waypoints.getD 0 (0, 0)])
    ++ [waypoints.getLast?.getD (0, 0)]

/-- `moving_average_smooth`: unchanged below 3 waypoints or window below 2;
otherwise each point is averaged over the index window
`[i - window/2, i + window/2]` clamped to valid indices (variable-count
average), and afterwards the first and last points are overwritten with the
original first and last waypoints. -/
def moving_average_smooth (waypoints : List (ℚ × ℚ)) (window_size : ℕ) :
    List (ℚ × ℚ) :=
  if waypoints.length < 3 ∨ window_size < 2 then waypoints
  else
    let half : ℕ := window_size / 2
    let n := waypoints.length
    let averaged := (List.range n).map fun (i : ℕ) =>
      let idxs := (List.range n).filter fun (k : ℕ) =>
        (i : ℤ) - (half : ℤ) ≤ (k : ℤ) ∧ (k : ℤ) ≤ (i : ℤ) + (half : ℤ)
      ((idxs.map fun k => (waypoints.getD k (0, 0)).1).sum / (idxs.length : ℚ),
       (idxs.map fun k => (waypoints.getD k (0, 0)).2).sum / (idxs.length : ℚ))
    (averaged.set 0 (waypoints.getD 0 (0, 0))).set (n - 1)
      (waypoints.getLast?.getD (0, 0))

/-! ## Theorems -/

/-- **C1**: `check_path_conflict` returns true iff some robot in `positions`
other than `self` has a rounded current position, or a rounded entry in
`targets`, equal to the rounded candidate target (ties rounded away from
zero); the result is invariant under the iteration order of `positions`;
and the two concrete snapshot examples from the spec evaluate as stated. -/
theorem C1_check_path_conflict
    (self : String) (tx ty : ℚ) (positions targets pos2 : List (String × ℚ × ℚ)) :
    (check_path_conflict self tx ty positions targets = true ↔
      ∃ e ∈ positions, e.1 ≠ self ∧
        ((to_grid e.2.1 = to_grid tx ∧ to_grid e.2.2 = to_grid ty) ∨
         (∃ q, targets.lookup e.1 = some q ∧
            to_grid q.1 = to_grid tx ∧ to_grid q.2 = to_grid ty))) ∧
    (positions.Perm pos2 →
      check_path_conflict self tx ty positions targets =
        check_path_conflict self tx ty pos2 targets) ∧
    check_path_conflict "A" 2 3 [("A", (12/5, 13/5)), ("B", (2, 3))] [] = true ∧
    check_path_conflict "A" 5 5 [("A", (12/5, 13/5)), ("B", (2, 3))] [] = false := by
  have key : ∀ pos : List (String × ℚ × ℚ),
      check_path_conflict self tx ty pos targets = true ↔
      ∃ e ∈ pos, e.1 ≠ self ∧
        ((to_grid e.2.1 = to_grid tx ∧ to_grid e.2.2 = to_grid ty) ∨
         (∃ q, targets.lookup e.1 = some q ∧
            to_grid q.1 = to_grid tx ∧ to_grid q.2 = to_grid ty)) := by
    intro pos
    simp only [check_path_conflict, List.any_eq_true]
    refine exists_congr fun e => and_congr_right fun _ => ?_
    by_cases h1 : e.1 = self
    · simp [h1]
    · by_cases h2 : to_grid e.2.1 = to_grid tx ∧ to_grid e.2.2 = to_grid ty
      · simp [h1, h2]
      · cases hl : targets.lookup e.1 with
        | none => simp [h1, h2, hl]
        | some q => simp [h1, h2, hl]
  refine ⟨key positions, fun hperm => ?_, ?_, ?_⟩
  · rw [Bool.eq_iff_iff, key positions, key pos2]
    constructor
    · rintro ⟨e, he, hp⟩; exact ⟨e, hperm.mem_iff.mp he, hp⟩
    · rintro ⟨e, he, hp⟩; exact ⟨e, hperm.mem_iff.mpr he, hp⟩
  · norm_num [check_path_conflict, to_grid, List.any]; decide
  · norm_num [check_path_conflict, to_grid, List.any]

/-- **C1 witness**: the order-independence part of the theorem applied to
the spec's concrete two-robot snapshot and its transposition. -/
theorem C1_check_path_conflict_witness :
    check_path_conflict "A" 2 3 [("A", (12/5, 13/5)), ("B", (2, 3))] [] =
      check_path_conflict "A" 2 3 [("B", (2, 3)), ("A", (12/5, 13/5))] [] :=
  (C1_check_path_conflict "A" 2 3 [("A", (12/5, 13/5)), ("B", (2, 3))] []
      [("B", (2, 3)), ("A", (12/5, 13/5))]).2.1
    (List.Perm.swap ("B", (2, 3)) ("A", (12/5, 13/5)) [])

/-- **C2**: after `inject_fault("motor_timeout")` every publish (including
the zero command issued by `stop`) is blocked: it returns `false` and
forwards nothing; after `clear_faults` the fault is `NONE`, the status has
reverted to `IDLE`, and the same calls succeed and forward the command. -/
theorem C2_motor_timeout_gates_commands (st : RobotHALState) (l a r : ℚ) :
    publish_cmd_vel (inject_fault st "motor_timeout") l a r = (false, none) ∧
    stop (inject_fault st "motor_timeout") r = (false, none) ∧
    (clear_faults (inject_fault st "motor_timeout")).fault_state = FaultState.NONE ∧
    (clear_faults (inject_fault st "motor_timeout")).status = RobotStatus.IDLE ∧
    publish_cmd_vel (clear_faults (inject_fault st "motor_timeout")) l a r =
      (true, some (l, a)) ∧
    stop (clear_faults (inject_fault st "motor_timeout")) r = (true, some (0, 0)) := by
  simp [publish_cmd_vel, stop, inject_fault, clear_faults]

/-- **C6 counterexample**: `"Motor_timeout"` equals `"motor_timeout"` under
case-insensitive comparison, yet `inject_fault` treats it as unrecognized:
the fault field stays `NONE` instead of becoming `MOTOR_TIMEOUT`. -/
theorem C6_mixed_case_not_recognized :
    lowerStr "Motor_timeout" = lowerStr "motor_timeout" ∧
    (inject_fault { robot_id := "robot_1" } "Motor_timeout").fault_state =
      FaultState.NONE ∧
    (inject_fault { robot_id := "robot_1" } "Motor_timeout").fault_state ≠
      FaultState.MOTOR_TIMEOUT := by
  refine ⟨by decide, by decide, by decide⟩

/-- **C6 (amended)**: `inject_fault` recognizes exactly the all-lowercase
and all-uppercase spellings of the three fault identifiers, mapping them to
the corresponding fault kind (`motor_timeout` also forcing status `FAULT`);
every other string, including mixed-case variants, leaves the state
unchanged (a diagnostic no-op). -/
theorem C6_inject_fault_exact_spellings (st : RobotHALState) (s : String) :
    ((s = "motor_timeout" ∨ s = "MOTOR_TIMEOUT") →
      inject_fault st s =
        { st with fault_state := FaultState.MOTOR_TIMEOUT,
                  status := RobotStatus.FAULT }) ∧
    ((s = "packet_drop" ∨ s = "PACKET_DROP") →
      inject_fault st s = { st with fault_state := FaultState.PACKET_DROP }) ∧
    ((s = "sensor_freeze" ∨ s = "SENSOR_FREEZE") →
      inject_fault st s = { st with fault_state := FaultState.SENSOR_FREEZE }) ∧
    (s ∉ ["motor_timeout", "MOTOR_TIMEOUT", "packet_drop", "PACKET_DROP",
          "sensor_freeze", "SENSOR_FREEZE"] →
      inject_fault st s = st) := by
  refine ⟨fun h => ?_, fun h => ?_, fun h => ?_, fun h => ?_⟩
  · rcases h with rfl | rfl <;> simp [inject_fault]
  · rcases h with rfl | rfl <;> simp [inject_fault]
  · rcases h with rfl | rfl <;> simp [inject_fault]
  · simp only [List.mem_cons, List.not_mem_nil, or_false, not_or] at h
    obtain ⟨h1, h2, h3, h4, h5, h6⟩ := h
    simp [inject_fault, h1, h2, h3, h4, h5, h6]

/-- **C6 witness**: the amended characterization applied to the concrete
strings `"sensor_freeze"` and `"bogus"` on a fresh state. -/
theorem C6_inject_fault_exact_spellings_witness :
    inject_fault { robot_id := "r" } "sensor_freeze" =
      { robot_id := "r", fault_state := FaultState.SENSOR_FREEZE } ∧
    inject_fault { robot_id := "r" } "bogus" = { robot_id := "r" } :=
  ⟨(C6_inject_fault_exact_spellings { robot_id := "r" } "sensor_freeze").2.2.1
      (Or.inl rfl),
   (C6_inject_fault_exact_spellings { robot_id := "r" } "bogus").2.2.2
      (by decide)⟩

/-- **C4**: for a well-formed zone, `is_in_sticky_zone` holds exactly on the
closed rectangle (all four boundary edges inclusive); for a malformed zone
(`x_min > x_max` or `y_min > y_max`) containment is false everywhere. -/
theorem C4_sticky_zone_containment (c : CollisionChecker) (x y : ℝ) :
    (c.sticky_zone.x_min ≤ c.sticky_zone.x_max →
      c.sticky_zone.y_min ≤ c.sticky_zone.y_max →
      (is_in_sticky_zone c x y ↔
        (c.sticky_zone.x_min : ℝ) ≤ x ∧ x ≤ (c.sticky_zone.x_max : ℝ) ∧
        (c.sticky_zone.y_min : ℝ) ≤ y ∧ y ≤ (c.sticky_zone.y_max : ℝ))) ∧
    (c.sticky_zone.x_max < c.sticky_zone.x_min ∨
        c.sticky_zone.y_max < c.sticky_zone.y_min →
      ¬ is_in_sticky_zone c x y) := by
  constructor
  · intro _ _
    exact Iff.rfl
  · rintro (hm | hm) ⟨h1, h2, h3, h4⟩
    · have : (c.sticky_zone.x_min : ℝ) ≤ (c.sticky_zone.x_max : ℝ) :=
        le_trans h1 h2
      exact absurd (Int.cast_le.mp this) (not_le.mpr hm)
    · have : (c.sticky_zone.y_min : ℝ) ≤ (c.sticky_zone.y_max : ℝ) :=
        le_trans h3 h4
      exact absurd (Int.cast_le.mp this) (not_le.mpr hm)

/-- **C4 witness**: a malformed zone (`x_min = 8 > 2 = x_max`) contains no
point, e.g. not `(5, 5)`. -/
theorem C4_sticky_zone_containment_witness :
    ¬ is_in_sticky_zone { sticky_zone := { x_min := 8, x_max := 2 } } 5 5 :=
  (C4_sticky_zone_containment { sticky_zone := { x_min := 8, x_max := 2 } } 5 5).2
    (Or.inl (by decide))

/-- The branching clamp used by `distance_to_sticky_zone` agrees with the
spec's `max(0, a - x, x - b)` form whenever `a ≤ b`. -/
theorem clamp_eq_max (a b x : ℝ) (hab : a ≤ b) :
    (if x < a then a - x else if x > b then x - b else 0) =
    max 0 (max (a - x) (x - b)) := by
  by_cases h1 : x < a
  · have hB : x - b ≤ a - x := by linarith
    have hA : (0:ℝ) ≤ a - x := by linarith
    rw [if_pos h1, max_eq_left hB, max_eq_right hA]
  · by_cases h2 : x > b
    · have hB : a - x ≤ x - b := by linarith
      have hA : (0:ℝ) ≤ x - b := by linarith
      rw [if_neg h1, if_pos h2, max_eq_right hB, max_eq_right hA]
    · have hA : a - x ≤ 0 := by linarith
      have hB : x - b ≤ 0 := by linarith
      rw [if_neg h1, if_neg h2, max_eq_left (max_le hA hB)]

/-- **C8**: for a well-formed zone, `distance_to_sticky_zone` returns the
negated minimum of the four edge distances inside the zone and the
Euclidean distance `sqrt(dx² + dy²)` with clamped offsets
`dx = max(0, x_min − x, x − x_max)` (and `dy` analogously) outside; on the
default `(5,7,5,7)` zone it returns `−1` at `(6,6)` and `1` at `(8,6)`. -/
theorem C8_distance_to_sticky_zone (c : CollisionChecker) (x y : ℝ)
    (hx : c.sticky_zone.x_min ≤ c.sticky_zone.x_max)
    (hy : c.sticky_zone.y_min ≤ c.sticky_zone.y_max) :
    (is_in_sticky_zone c x y →
      distance_to_sticky_zone c x y =
        -min (min (x - (c.sticky_zone.x_min : ℝ)) ((c.sticky_zone.x_max : ℝ) - x))
             (min (y - (c.sticky_zone.y_min : ℝ)) ((c.sticky_zone.y_max : ℝ) - y))) ∧
    (¬ is_in_sticky_zone c x y →
      distance_to_sticky_zone c x y =
        Real.sqrt
          (max 0 (max ((c.sticky_zone.x_min : ℝ) - x) (x - (c.sticky_zone.x_max : ℝ))) *
             max 0 (max ((c.sticky_zone.x_min : ℝ) - x) (x - (c.sticky_zone.x_max : ℝ))) +
           max 0 (max ((c.sticky_zone.y_min : ℝ) - y) (y - (c.sticky_zone.y_max : ℝ))) *
             max 0 (max ((c.sticky_zone.y_min : ℝ) - y) (y - (c.sticky_zone.y_max : ℝ))))) ∧
    distance_to_sticky_zone {} 6 6 = -1 ∧
    distance_to_sticky_zone {} 8 6 = 1 := by
  have hxR : (c.sticky_zone.x_min : ℝ) ≤ (c.sticky_zone.x_max : ℝ) := Int.cast_le.mpr hx
  have hyR : (c.sticky_zone.y_min : ℝ) ≤ (c.sticky_zone.y_max : ℝ) := Int.cast_le.mpr hy
  refine ⟨fun h => ?_, fun h => ?_, ?_, ?_⟩
  · rw [distance_to_sticky_zone, if_pos h]
  · rw [distance_to_sticky_zone, if_neg h]
    rw [clamp_eq_max _ _ _ hxR, clamp_eq_max _ _ _ hyR]
  · rw [distance_to_sticky_zone,
      if_pos (by norm_num [is_in_sticky_zone, StickyZone.contains])]
    norm_num
  · rw [distance_to_sticky_zone,
      if_neg (by norm_num [is_in_sticky_zone, StickyZone.contains])]
    norm_num [Real.sqrt_eq_one]

/-- **C8 witness**: the theorem applied to the default zone, yielding the
two concrete signed distances. -/
theorem C8_distance_to_sticky_zone_witness :
    distance_to_sticky_zone {} 6 6 = -1 ∧ distance_to_sticky_zone {} 8 6 = 1 :=
  (C8_distance_to_sticky_zone {} 6 6 (by decide) (by decide)).2.2

/-- **C10**: a default-constructed `CollisionChecker` already carries the
sticky zone `(5, 7, 5, 7)` and a `10 × 10` grid with cell size `1.0`; in
particular `(6, 6)` is in the sticky zone and `(10, 0)` is out of bounds. -/
theorem C10_default_configuration :
    ({} : CollisionChecker).sticky_zone =
      { x_min := 5, x_max := 7, y_min := 5, y_max := 7 } ∧
    ({} : CollisionChecker).grid.width = 10 ∧
    ({} : CollisionChecker).grid.height = 10 ∧
    ({} : CollisionChecker).grid.cell_size = 1 ∧
    is_in_sticky_zone {} 6 6 ∧
    ¬ is_in_bounds {} 10 0 := by
  refine ⟨rfl, rfl, rfl, rfl, ?_, ?_⟩
  · refine ⟨?_, ?_, ?_, ?_⟩ <;> norm_num
  · rintro ⟨-, h, -, -⟩
    norm_num at h

/-- A two-element list is literally a pair. -/
theorem exists_pair_of_length_two {α : Type} (w : List α) (h : w.length = 2) :
    ∃ a b, w = [a, b] := by
  cases w with
  | nil => simp at h
  | cons a t =>
    cases t with
    | nil => simp at h
    | cons b t2 =>
      cases t2 with
      | nil => exact ⟨a, b, rfl⟩
      | cons c t3 => simp at h

/-- A fold whose step only ever appends to the accumulator returns an
extension of the accumulator. -/
theorem foldl_extends {α β : Type} (f : List α → β → List α)
    (hf : ∀ acc x, ∃ s, f acc x = acc ++ s) :
    ∀ (l : List β) (acc : List α), ∃ s, l.foldl f acc = acc ++ s := by
  intro l
  induction l with
  | nil => exact fun acc => ⟨[], by simp⟩
  | cons x xs ih =>
    intro acc
    obtain ⟨s1, hs1⟩ := hf acc x
    obtain ⟨s2, hs2⟩ := ih (f acc x)
    exact ⟨s1 ++ s2, by rw [List.foldl_cons, hs2, hs1, List.append_assoc]⟩

/-- At `t = 0` the Catmull-Rom basis collapses to the second control
point. -/
theorem catmullRomPoint_zero (p0 p1 p2 p3 : ℚ × ℚ) :
    catmullRomPoint p0 p1 p2 p3 0 = p1 := by
  simp [catmullRomPoint]

/-- `smooth_path` output length for at least 3 waypoints. -/
theorem smooth_path_length_ge3 (w : List (ℚ × ℚ)) (pps : ℕ) (h3 : 3 ≤ w.length) :
    (smooth_path w pps).length = (w.length - 1) * pps + 1 := by
  rw [smooth_path, if_neg (by omega), if_neg (by omega)]
  rw [List.length_append, List.length_flatMap]
  simp [Function.comp_def]

/-- `smooth_path` keeps the first waypoint for at least 3 waypoints. -/
theorem smooth_path_head_ge3 (w : List (ℚ × ℚ)) (pps : ℕ) (h3 : 3 ≤ w.length)
    (hp : 1 ≤ pps) : (smooth_path w pps).head? = w.head? := by
  rw [smooth_path, if_neg (by omega), if_neg (by omega)]
  obtain ⟨m, hm⟩ : ∃ m, w.length - 1 = m + 1 := ⟨w.length - 2, by omega⟩
  obtain ⟨k, hk⟩ : ∃ k, pps = k + 1 := ⟨pps - 1, by omega⟩
  rw [hm, hk, List.range_succ_eq_map, List.flatMap_cons]
  rw [List.range_succ_eq_map, List.map_cons]
  simp only [List.cons_append, List.head?_cons]
  rw [Nat.cast_zero, zero_div, catmullRomPoint_zero]
  cases w with
  | nil => simp at h3
  | cons a t => simp [List.getD]

/-- `smooth_path` ends with the last waypoint for at least 3 waypoints. -/
theorem smooth_path_last_ge3 (w : List (ℚ × ℚ)) (pps : ℕ) (h3 : 3 ≤ w.length) :
    (smooth_path w pps).getLast? = w.getLast? := by
  rw [smooth_path, if_neg (by omega), if_neg (by omega)]
  rw [List.getLast?_concat]
  cases w with
  | nil => simp at h3
  | cons a t =>
    obtain ⟨x, hx⟩ : ∃ x, (a :: t).getLast? = some x :=
      Option.isSome_iff_exists.mp (List.getLast?_isSome.mpr (by simp))
    rw [hx]
    simp [Option.getD]

/-- `smooth_path` on exactly two waypoints produces
`points_per_segment + 1` samples. -/
theorem smooth_path_two_length (a b : ℚ × ℚ) (pps : ℕ) :
    (smooth_path [a, b] pps).length = pps + 1 := by
  rw [smooth_path, if_neg (by simp), if_pos (by simp)]
  simp

/-- Every sample of the two-waypoint case lies on the segment `[a, b]`. -/
theorem smooth_path_two_mem (a b : ℚ × ℚ) (pps : ℕ) (hp : 1 ≤ pps) :
    ∀ p ∈ smooth_path [a, b] pps, ∃ t : ℚ, 0 ≤ t ∧ t ≤ 1 ∧
      p = (a.1 + t * (b.1 - a.1), a.2 + t * (b.2 - a.2)) := by
  rw [smooth_path, if_neg (by simp), if_pos (by simp)]
  intro p hp2
  simp only [List.mem_map, List.mem_range] at hp2
  obtain ⟨i, hi, rfl⟩ := hp2
  refine ⟨(i : ℚ) / (pps : ℚ), ?_, ?_, ?_⟩
  · positivity
  · rw [div_le_one (by exact_mod_cast hp)]
    exact_mod_cast Nat.lt_succ_iff.mp hi
  · simp [List.getD]

/-- The two-waypoint case starts exactly at the first input waypoint. -/
theorem smooth_path_two_head (a b : ℚ × ℚ) (pps : ℕ) :
    (smooth_path [a, b] pps).head? = some a := by
  rw [smooth_path, if_neg (by simp), if_pos (by simp)]
  rw [List.range_succ_eq_map, List.map_cons]
  simp [List.getD]

/-- The two-waypoint case ends exactly at the second input waypoint. -/
theorem smooth_path_two_last (a b : ℚ × ℚ) (pps : ℕ) (hp : 1 ≤ pps) :
    (smooth_path [a, b] pps).getLast? = some b := by
  rw [smooth_path, if_neg (by simp), if_pos (by simp)]
  rw [List.range_succ, List.map_append, List.map_singleton, List.getLast?_concat]
  have hne : (pps : ℚ) ≠ 0 := by exact_mod_cast Nat.one_le_iff_ne_zero.mp hp
  simp [List.getD, div_self hne]

/-- The deduplicating push only appends. -/
theorem bezierDedupPush_extends (acc : List (ℚ × ℚ)) (p : ℚ × ℚ) :
    ∃ s, bezierDedupPush acc p = acc ++ s := by
  rw [bezierDedupPush]
  split
  · exact ⟨[p], rfl⟩
  · exact ⟨[], (List.append_nil _).symm⟩

/-- A whole Bézier segment only appends to the accumulator. -/
theorem bezierSegment_extends (w : List (ℚ × ℚ)) (tension : ℚ) (i : ℕ)
    (acc : List (ℚ × ℚ)) : ∃ s, bezierSegment w tension i acc = acc ++ s := by
  simp only [bezierSegment]
  exact foldl_extends _ (fun acc2 j => bezierDedupPush_extends acc2 _) (List.range 5) acc

/-- `bezier_smooth` keeps the first waypoint for at least 3 waypoints. -/
theorem bezier_smooth_head (w : List (ℚ × ℚ)) (tension : ℚ) (h3 : 3 ≤ w.length) :
    (bezier_smooth w tension).head? = w.head? := by
  rw [bezier_smooth, if_neg (by omega)]
  obtain ⟨s, hs⟩ := foldl_extends _ (fun acc k => bezierSegment_extends w tension (k + 1) acc)
    (List.range (w.length - 2)) [w.getD 0 (0, 0)]
  rw [hs]
  cases w with
  | nil => simp at h3
  | cons a t => simp [List.getD]

/-- `bezier_smooth` ends with the last waypoint for at least 3 waypoints. -/
theorem bezier_smooth_last (w : List (ℚ × ℚ)) (tension : ℚ) (h3 : 3 ≤ w.length) :
    (bezier_smooth w tension).getLast? = w.getLast? := by
  rw [bezier_smooth, if_neg (by omega), List.getLast?_concat]
  cases w with
  | nil => simp at h3
  | cons a t =>
    obtain ⟨x, hx⟩ : ∃ x, (a :: t).getLast? = some x :=
      Option.isSome_iff_exists.mp (List.getLast?_isSome.mpr (by simp))
    rw [hx]
    simp [Option.getD]

/-- `moving_average_smooth` keeps the first waypoint (forced override). -/
theorem moving_average_smooth_head (w : List (ℚ × ℚ)) (window : ℕ)
    (h3 : 3 ≤ w.length) (h2 : 2 ≤ window) :
    (moving_average_smooth w window).head? = w.head? := by
  rw [moving_average_smooth, if_neg (by omega)]
  rw [List.head?_eq_getElem?, List.getElem?_set_ne (by omega),
    List.getElem?_set_self (by simp; omega)]
  cases w with
  | nil => simp at h3
  | cons a t => simp [List.getD]

/-- `moving_average_smooth` ends with the last waypoint (forced override). -/
theorem moving_average_smooth_last (w : List (ℚ × ℚ)) (window : ℕ)
    (h3 : 3 ≤ w.length) (h2 : 2 ≤ window) :
    (moving_average_smooth w window).getLast? = w.getLast? := by
  rw [moving_average_smooth, if_neg (by omega)]
  rw [List.getLast?_eq_getElem?]
  simp only [List.length_set, List.length_map, List.length_range]
  rw [List.getElem?_set_self (by simp; omega)]
  cases w with
  | nil => simp at h3
  | cons a t =>
    obtain ⟨x, hx⟩ : ∃ x, (a :: t).getLast? = some x :=
      Option.isSome_iff_exists.mp (List.getLast?_isSome.mpr (by simp))
    rw [hx]
    simp [Option.getD]

/-- **C3**: all three smoothing functions preserve the first and last input
waypoints exactly (for inputs below each function's minimum size the input
is returned unchanged, so the property holds trivially). -/
theorem C3_smoothing_preserves_endpoints (w : List (ℚ × ℚ)) (pps window : ℕ)
    (tension : ℚ) (hp : 1 ≤ pps) :
    ((smooth_path w pps).head? = w.head? ∧
      (smooth_path w pps).getLast? = w.getLast?) ∧
    ((bezier_smooth w tension).head? = w.head? ∧
      (bezier_smooth w tension).getLast? = w.getLast?) ∧
    ((moving_average_smooth w window).head? = w.head? ∧
      (moving_average_smooth w window).getLast? = w.getLast?) := by
  have hsmooth : (smooth_path w pps).head? = w.head? ∧
      (smooth_path w pps).getLast? = w.getLast? := by
    by_cases hlt : w.length < 2
    · rw [smooth_path, if_pos hlt]
      exact ⟨rfl, rfl⟩
    · by_cases heq : w.length = 2
      · obtain ⟨a, b, rfl⟩ := exists_pair_of_length_two w heq
        rw [smooth_path_two_head, smooth_path_two_last a b pps hp]
        exact ⟨rfl, rfl⟩
      · exact ⟨smooth_path_head_ge3 w pps (by omega) hp,
          smooth_path_last_ge3 w pps (by omega)⟩
  have hbez : (bezier_smooth w tension).head? = w.head? ∧
      (bezier_smooth w tension).getLast? = w.getLast? := by
    by_cases hlt : w.length < 3
    · rw [bezier_smooth, if_pos hlt]
      exact ⟨rfl, rfl⟩
    · exact ⟨bezier_smooth_head w tension (by omega),
        bezier_smooth_last w tension (by omega)⟩
  have hma : (moving_average_smooth w window).head? = w.head? ∧
      (moving_average_smooth w window).getLast? = w.getLast? := by
    by_cases hlt : w.length < 3 ∨ window < 2
    · rw [moving_average_smooth, if_pos hlt]
      exact ⟨rfl, rfl⟩
    · push_neg at hlt
      exact ⟨moving_average_smooth_head w window (by omega) (by omega),
        moving_average_smooth_last w window (by omega) (by omega)⟩
  exact ⟨hsmooth, hbez, hma⟩

/-- **C3 witness**: endpoint preservation on a concrete 3-waypoint path
with `points_per_segment = 10`, `tension = 1/2`, `window_size = 3`. -/
theorem C3_smoothing_preserves_endpoints_witness :
    (smooth_path [(0, 0), (1, 2), (3, 1)] 10).head? = some ((0 : ℚ), (0 : ℚ)) ∧
    (smooth_path [(0, 0), (1, 2), (3, 1)] 10).getLast? = some ((3 : ℚ), (1 : ℚ)) ∧
    (bezier_smooth [(0, 0), (1, 2), (3, 1)] (1/2)).getLast? = some ((3 : ℚ), (1 : ℚ)) ∧
    (moving_average_smooth [(0, 0), (1, 2), (3, 1)] 3).head? = some ((0 : ℚ), (0 : ℚ)) := by
  have h := C3_smoothing_preserves_endpoints [(0, 0), (1, 2), (3, 1)] 10 3 (1/2)
    (by decide)
  exact ⟨h.1.1, h.1.2, h.2.1.2, h.2.2.1⟩

/-- **C7**: `smooth_path` returns short inputs unchanged; on exactly two
waypoints it returns `points_per_segment + 1` linear-interpolation samples,
all on the segment, starting at `a` and ending at `b` (5 points for
`points_per_segment = 4`); on `n ≥ 3` waypoints it returns
`(n − 1) · points_per_segment + 1` points ending with the final input
waypoint. -/
theorem C7_smooth_path_shape (w : List (ℚ × ℚ)) (a b : ℚ × ℚ) (pps : ℕ)
    (hp : 1 ≤ pps) :
    (w.length < 2 → smooth_path w pps = w) ∧
    (smooth_path [a, b] pps).length = pps + 1 ∧
    (∀ p ∈ smooth_path [a, b] pps, ∃ t : ℚ, 0 ≤ t ∧ t ≤ 1 ∧
      p = (a.1 + t * (b.1 - a.1), a.2 + t * (b.2 - a.2))) ∧
    (smooth_path [a, b] pps).head? = some a ∧
    (smooth_path [a, b] pps).getLast? = some b ∧
    (smooth_path [a, b] 4).length = 5 ∧
    (3 ≤ w.length →
      (smooth_path w pps).length = (w.length - 1) * pps + 1 ∧
      (smooth_path w pps).getLast? = w.getLast?) := by
  refine ⟨fun hlt => ?_, smooth_path_two_length a b pps,
    smooth_path_two_mem a b pps hp, smooth_path_two_head a b pps,
    smooth_path_two_last a b pps hp, smooth_path_two_length a b 4,
    fun h3 => ⟨smooth_path_length_ge3 w pps h3, smooth_path_last_ge3 w pps h3⟩⟩
  rw [smooth_path, if_pos hlt]

/-- **C7 witness**: the shape properties at a concrete 3-waypoint path and
a concrete pair, with `points_per_segment = 4`. -/
theorem C7_smooth_path_shape_witness :
    (smooth_path [((0 : ℚ), (0 : ℚ)), (1, 2)] 4).length = 4 + 1 ∧
    (smooth_path [((0 : ℚ), (0 : ℚ)), (1, 1), (2, 0)] 4).length = 2 * 4 + 1 := by
  have h := C7_smooth_path_shape [((0 : ℚ), (0 : ℚ)), (1, 1), (2, 0)] (0, 0) (1, 2) 4
    (by decide)
  exact ⟨h.2.1, ((h.2.2.2.2.2.2 (by decide)).1 : _)⟩

/-- **C9**: `is_sharp_turn` is false whenever either direction vector is
shorter than `1e-9` (in particular for `p1 = p2` or `p2 = p3`); otherwise
it holds iff `acos` of the clamped normalized dot product exceeds the
threshold; it is false for colinear forward points (`p2→p3 = c·(p1→p2)`,
`c > 0`) whenever the threshold is nonnegative, and true for a full
reversal (`p3 = p1`) whenever the threshold is below `π`. -/
theorem C9_is_sharp_turn (p1 p2 p3 : ℝ × ℝ) (threshold c : ℝ) :
    ((Real.sqrt ((p2.1 - p1.1) * (p2.1 - p1.1) + (p2.2 - p1.2) * (p2.2 - p1.2)) <
          1 / 1000000000 ∨
        Real.sqrt ((p3.1 - p2.1) * (p3.1 - p2.1) + (p3.2 - p2.2) * (p3.2 - p2.2)) <
          1 / 1000000000) →
      ¬ is_sharp_turn p1 p2 p3 threshold) ∧
    (¬ is_sharp_turn p1 p1 p3 threshold) ∧
    (¬ is_sharp_turn p1 p2 p2 threshold) ∧
    (¬ (Real.sqrt ((p2.1 - p1.1) * (p2.1 - p1.1) + (p2.2 - p1.2) * (p2.2 - p1.2)) <
          1 / 1000000000 ∨
        Real.sqrt ((p3.1 - p2.1) * (p3.1 - p2.1) + (p3.2 - p2.2) * (p3.2 - p2.2)) <
          1 / 1000000000) →
      (is_sharp_turn p1 p2 p3 threshold ↔
        Real.arccos (max (-1) (min 1
          (((p2.1 - p1.1) /
              Real.sqrt ((p2.1 - p1.1) * (p2.1 - p1.1) + (p2.2 - p1.2) * (p2.2 - p1.2))) *
             ((p3.1 - p2.1) /
              Real.sqrt ((p3.1 - p2.1) * (p3.1 - p2.1) + (p3.2 - p2.2) * (p3.2 - p2.2))) +
           ((p2.2 - p1.2) /
              Real.sqrt ((p2.1 - p1.1) * (p2.1 - p1.1) + (p2.2 - p1.2) * (p2.2 - p1.2))) *
             ((p3.2 - p2.2) /
              Real.sqrt ((p3.1 - p2.1) * (p3.1 - p2.1) + (p3.2 - p2.2) * (p3.2 - p2.2)))))) >
          threshold)) ∧
    (0 < c → p3.1 - p2.1 = c * (p2.1 - p1.1) → p3.2 - p2.2 = c * (p2.2 - p1.2) →
      0 ≤ threshold → ¬ is_sharp_turn p1 p2 p3 threshold) ∧
    (1 / 1000000000 ≤
        Real.sqrt ((p2.1 - p1.1) * (p2.1 - p1.1) + (p2.2 - p1.2) * (p2.2 - p1.2)) →
      threshold < Real.pi → is_sharp_turn p1 p2 p1 threshold) := by
  refine ⟨fun h => ?_, ?_, ?_, fun h => ?_, fun hc hx hy hθ => ?_, fun hlen hθ => ?_⟩
  · rw [is_sharp_turn, if_pos h]
    exact not_false
  · rw [is_sharp_turn, if_pos]
    · exact not_false
    · left
      norm_num
  · rw [is_sharp_turn, if_pos]
    · exact not_false
    · right
      norm_num
  · rw [is_sharp_turn, if_neg h]
  · by_cases h : Real.sqrt ((p2.1 - p1.1) * (p2.1 - p1.1) +
        (p2.2 - p1.2) * (p2.2 - p1.2)) < 1 / 1000000000 ∨
        Real.sqrt ((p3.1 - p2.1) * (p3.1 - p2.1) + (p3.2 - p2.2) * (p3.2 - p2.2)) <
          1 / 1000000000
    · rw [is_sharp_turn, if_pos h]
      exact not_false
    · rw [is_sharp_turn, if_neg h]
      push_neg at h
      obtain ⟨h1, h2⟩ := h
      set v1x := p2.1 - p1.1
      set v1y := p2.2 - p1.2
      set len1 := Real.sqrt (v1x * v1x + v1y * v1y) with hlen1
      have hl1pos : 0 < len1 := lt_of_lt_of_le (by norm_num) h1
      have hsq : len1 * len1 = v1x * v1x + v1y * v1y :=
        Real.mul_self_sqrt (add_nonneg (mul_self_nonneg _) (mul_self_nonneg _))
      have hlen2 : Real.sqrt ((p3.1 - p2.1) * (p3.1 - p2.1) +
          (p3.2 - p2.2) * (p3.2 - p2.2)) = c * len1 := by
        rw [hx, hy,
          show c * v1x * (c * v1x) + c * v1y * (c * v1y) =
            c * c * (v1x * v1x + v1y * v1y) from by ring,
          Real.sqrt_mul (mul_self_nonneg c), Real.sqrt_mul_self hc.le, hlen1]
      have hdot : (v1x / len1) * ((p3.1 - p2.1) / (c * len1)) +
          (v1y / len1) * ((p3.2 - p2.2) / (c * len1)) = 1 := by
        rw [hx, hy]
        field_simp
        nlinarith [hsq]
      rw [hlen2, hdot]
      norm_num [Real.arccos_one]
      exact hθ
  · rw [is_sharp_turn]
    have hswap : (p1.1 - p2.1) * (p1.1 - p2.1) + (p1.2 - p2.2) * (p1.2 - p2.2) =
        (p2.1 - p1.1) * (p2.1 - p1.1) + (p2.2 - p1.2) * (p2.2 - p1.2) := by ring
    rw [if_neg]
    · set v1x := p2.1 - p1.1
      set v1y := p2.2 - p1.2
      set len1 := Real.sqrt (v1x * v1x + v1y * v1y) with hlen1
      have hl1pos : 0 < len1 := lt_of_lt_of_le (by norm_num) hlen
      have hsq : len1 * len1 = v1x * v1x + v1y * v1y :=
        Real.mul_self_sqrt (add_nonneg (mul_self_nonneg _) (mul_self_nonneg _))
      have hdot : (v1x / len1) * ((p1.1 - p2.1) /
            Real.sqrt ((p1.1 - p2.1) * (p1.1 - p2.1) + (p1.2 - p2.2) * (p1.2 - p2.2))) +
          (v1y / len1) * ((p1.2 - p2.2) /
            Real.sqrt ((p1.1 - p2.1) * (p1.1 - p2.1) + (p1.2 - p2.2) * (p1.2 - p2.2))) =
          -1 := by
        rw [hswap, ← hlen1]
        have hx1 : p1.1 - p2.1 = -v1x := by simp [v1x]
        have hy1 : p1.2 - p2.2 = -v1y := by simp [v1y]
        rw [hx1, hy1]
        field_simp
        nlinarith [hsq]
      rw [hdot]
      norm_num [Real.arccos_neg_one]
      exact hθ
    · rw [hswap]
      push_neg
      exact ⟨hlen, hlen⟩

/-- **C9 witness**: on the x-axis, three colinear forward points are not a
sharp turn at threshold `1`, and a full reversal is. -/
theorem C9_is_sharp_turn_witness :
    ¬ is_sharp_turn (0, 0) (1, 0) (2, 0) 1 ∧
    is_sharp_turn (0, 0) (1, 0) (0, 0) 1 := by
  constructor
  · exact (C9_is_sharp_turn (0, 0) (1, 0) (2, 0) 1 1).2.2.2.2.1
      one_pos (by norm_num) (by norm_num) zero_le_one
  · exact (C9_is_sharp_turn (0, 0) (1, 0) (2, 0) 1 1).2.2.2.2.2
      (by norm_num) (lt_trans (by norm_num) Real.pi_gt_three)

theorem segLen_nonneg (a b : ℝ × ℝ) : 0 ≤ segLen a b := Real.sqrt_nonneg _

theorem segLen_eq_dist (a b : ℝ × ℝ) : segLen a b = dist (toC a) (toC b) := by
  rw [Complex.dist_eq, Complex.abs_apply, Complex.normSq_apply, segLen]
  have h1 : (toC a - toC b).re = a.1 - b.1 := rfl
  have h2 : (toC a - toC b).im = a.2 - b.2 := rfl
  rw [h1, h2]
  ring_nf

theorem segLen_self (a : ℝ × ℝ) : segLen a a = 0 := by
  simp [segLen, Real.sqrt_zero]

theorem segLen_triangle (a b c : ℝ × ℝ) : segLen a c ≤ segLen a b + segLen b c := by
  rw [segLen_eq_dist, segLen_eq_dist, segLen_eq_dist]
  exact dist_triangle _ _ _

theorem segLen_lerp (a : ℝ × ℝ) (dx dy t u : ℝ) :
    segLen (a.1 + t * dx, a.2 + t * dy) (a.1 + u * dx, a.2 + u * dy) =
      |u - t| * Real.sqrt (dx * dx + dy * dy) := by
  rw [segLen]
  have h : (a.1 + u * dx - (a.1 + t * dx)) * (a.1 + u * dx - (a.1 + t * dx)) +
      (a.2 + u * dy - (a.2 + t * dy)) * (a.2 + u * dy - (a.2 + t * dy)) =
      ((u - t) * (u - t)) * (dx * dx + dy * dy) := by ring
  rw [h, Real.sqrt_mul (mul_self_nonneg _), Real.sqrt_mul_self_eq_abs]

theorem path_length_nil : path_length [] = 0 := rfl

theorem path_length_single (a : ℝ × ℝ) : path_length [a] = 0 := rfl

theorem path_length_cons_cons (a b : ℝ × ℝ) (l : List (ℝ × ℝ)) :
    path_length (a :: b :: l) = segLen a b + path_length (b :: l) := rfl

theorem path_length_nonneg (l : List (ℝ × ℝ)) : 0 ≤ path_length l := by
  induction l with
  | nil => rw [path_length_nil]
  | cons a t ih =>
    cases t with
    | nil => rw [path_length_single]
    | cons b r =>
      rw [path_length_cons_cons]
      exact add_nonneg (segLen_nonneg a b) ih

theorem getLastD_cons_cons (x y : ℝ × ℝ) (l : List (ℝ × ℝ)) (d : ℝ × ℝ) :
    (x :: y :: l).getLastD d = (y :: l).getLastD d := by
  rw [List.getLastD_cons, List.getLastD_cons, List.getLastD_cons]

theorem getLastD_append (xs ys : List (ℝ × ℝ)) (d : ℝ × ℝ) :
    (xs ++ ys).getLastD d = ys.getLastD (xs.getLastD d) := by
  induction xs generalizing d with
  | nil => rfl
  | cons x t ih =>
    rw [List.cons_append, List.getLastD_cons, List.getLastD_cons]
    exact ih x

theorem path_length_append (xs ys : List (ℝ × ℝ)) (d : ℝ × ℝ) (h : xs ≠ []) :
    path_length (xs ++ ys) = path_length xs + path_length (xs.getLastD d :: ys) := by
  induction xs with
  | nil => exact absurd rfl h
  | cons x t ih =>
    cases t with
    | nil =>
      rw [List.cons_append, List.nil_append, path_length_single,
        List.getLastD_cons, zero_add]
      rfl
    | cons y u =>
      rw [List.cons_append, List.cons_append, path_length_cons_cons,
        path_length_cons_cons, ← List.cons_append, ih (by simp),
        getLastD_cons_cons]
      ring

theorem segLen_shift (a : ℝ × ℝ) (dx dy : ℝ) :
    segLen a (a.1 + dx, a.2 + dy) = Real.sqrt (dx * dx + dy * dy) := by
  rw [segLen]
  norm_num

theorem segLen_from_base (a : ℝ × ℝ) (dx dy t : ℝ) :
    segLen a (a.1 + t * dx, a.2 + t * dy) = |t| * Real.sqrt (dx * dx + dy * dy) := by
  rw [segLen]
  have h : (a.1 + t * dx - a.1) * (a.1 + t * dx - a.1) +
      (a.2 + t * dy - a.2) * (a.2 + t * dy - a.2) = (t * t) * (dx * dx + dy * dy) := by
    ring
  rw [h, Real.sqrt_mul (mul_self_nonneg _), Real.sqrt_mul_self_eq_abs]

theorem resampleEmit_tail (a : ℝ × ℝ) (dx dy s acc : ℝ) (hs : 0 < s) :
    ∀ (fuel : ℕ) (nt tP : ℝ), 0 ≤ tP → tP ≤ 1 →
      acc + tP * Real.sqrt (dx * dx + dy * dy) < nt →
      path_length ((a.1 + tP * dx, a.2 + tP * dy) ::
          (resampleEmit a dx dy (Real.sqrt (dx * dx + dy * dy)) acc s nt fuel).1) +
        segLen (((a.1 + tP * dx, a.2 + tP * dy) ::
            (resampleEmit a dx dy (Real.sqrt (dx * dx + dy * dy)) acc s nt fuel).1).getLastD
            (0, 0))
          (a.1 + dx, a.2 + dy) =
        (1 - tP) * Real.sqrt (dx * dx + dy * dy) := by
  intro fuel
  induction fuel with
  | zero =>
    intro nt tP h0 h1 hlt
    rw [resampleEmit]
    dsimp only
    rw [path_length_single, List.getLastD_cons, List.getLastD_nil, zero_add]
    rw [show ((a.1 + dx, a.2 + dy) : ℝ × ℝ) = (a.1 + 1 * dx, a.2 + 1 * dy) from by norm_num]
    rw [segLen_lerp, abs_of_nonneg (by linarith)]
  | succ n ih =>
    intro nt tP h0 h1 hlt
    by_cases hc : acc + Real.sqrt (dx * dx + dy * dy) ≥ nt
    · have hseg0 : 0 ≤ Real.sqrt (dx * dx + dy * dy) := Real.sqrt_nonneg _
      have hsegpos : 0 < Real.sqrt (dx * dx + dy * dy) := by
        rcases eq_or_lt_of_le hseg0 with he | hl
        · exfalso
          nlinarith [mul_nonneg h0 hseg0]
        · exact hl
      rw [resampleEmit, if_pos hc]
      dsimp only
      set seg := Real.sqrt (dx * dx + dy * dy) with hseg
      have ht'0 : 0 ≤ (nt - acc) / seg := by
        apply div_nonneg _ hseg0
        nlinarith [mul_nonneg h0 hseg0]
      have ht'1 : (nt - acc) / seg ≤ 1 := by
        rw [div_le_one hsegpos]
        linarith
      have htt' : tP < (nt - acc) / seg := by
        rw [lt_div_iff₀ hsegpos]
        linarith
      have hIH := ih (nt + s) ((nt - acc) / seg) ht'0 ht'1 (by
        rw [div_mul_cancel₀ _ (ne_of_gt hsegpos)]
        linarith)
      rw [path_length_cons_cons, getLastD_cons_cons]
      have hfirst : segLen (a.1 + tP * dx, a.2 + tP * dy)
          (a.1 + (nt - acc) / seg * dx, a.2 + (nt - acc) / seg * dy) =
          ((nt - acc) / seg - tP) * seg := by
        rw [segLen_lerp, abs_of_nonneg (by linarith)]
      linear_combination hfirst + hIH
    · rw [resampleEmit, if_neg hc]
      dsimp only
      rw [path_length_single, List.getLastD_cons, List.getLastD_nil, zero_add]
      rw [show ((a.1 + dx, a.2 + dy) : ℝ × ℝ) = (a.1 + 1 * dx, a.2 + 1 * dy) from by norm_num]
      rw [segLen_lerp, abs_of_nonneg (by linarith)]

theorem resampleEmit_budget (a : ℝ × ℝ) (dx dy seg acc s : ℝ) :
    ∀ (fuel : ℕ) (nt : ℝ),
      (resampleEmit a dx dy seg acc s nt fuel).1.length = fuel ∨
      acc + seg < (resampleEmit a dx dy seg acc s nt fuel).2 := by
  intro fuel
  induction fuel with
  | zero =>
    intro nt
    left
    rfl
  | succ n ih =>
    intro nt
    by_cases hc : acc + seg ≥ nt
    · rw [resampleEmit, if_pos hc]
      rcases ih (nt + s) with h | h
      · left
        dsimp only
        rw [List.length_cons, h]
      · right
        dsimp only
        exact h
    · right
      rw [resampleEmit, if_neg hc]
      exact lt_of_not_ge hc

theorem resampleEmit_bound (a : ℝ × ℝ) (dx dy acc s : ℝ) (hs : 0 < s) :
    ∀ (fuel : ℕ) (nt : ℝ) (P : ℝ × ℝ), acc < nt →
      path_length (P :: (resampleEmit a dx dy (Real.sqrt (dx * dx + dy * dy)) acc s nt fuel).1) +
        segLen ((P :: (resampleEmit a dx dy (Real.sqrt (dx * dx + dy * dy)) acc s nt fuel).1).getLastD
            (0, 0))
          (a.1 + dx, a.2 + dy) ≤
        segLen P a + Real.sqrt (dx * dx + dy * dy) := by
  have hbase : ∀ (P : ℝ × ℝ),
      path_length [P] + segLen ([P].getLastD (0, 0)) (a.1 + dx, a.2 + dy) ≤
        segLen P a + Real.sqrt (dx * dx + dy * dy) := by
    intro P
    rw [path_length_single, List.getLastD_cons, List.getLastD_nil, zero_add]
    calc segLen P (a.1 + dx, a.2 + dy)
        ≤ segLen P a + segLen a (a.1 + dx, a.2 + dy) := segLen_triangle _ _ _
      _ = segLen P a + Real.sqrt (dx * dx + dy * dy) := by rw [segLen_shift]
  intro fuel
  cases fuel with
  | zero =>
    intro nt P hlt
    rw [resampleEmit]
    exact hbase P
  | succ n =>
    intro nt P hlt
    by_cases hc : acc + Real.sqrt (dx * dx + dy * dy) ≥ nt
    · have hseg0 : 0 ≤ Real.sqrt (dx * dx + dy * dy) := Real.sqrt_nonneg _
      have hsegpos : 0 < Real.sqrt (dx * dx + dy * dy) := by
        rcases eq_or_lt_of_le hseg0 with he | hl
        · exfalso
          rw [← he] at hc
          linarith
        · exact hl
      rw [resampleEmit, if_pos hc]
      dsimp only
      set seg := Real.sqrt (dx * dx + dy * dy) with hseg
      have ht'0 : 0 ≤ (nt - acc) / seg := div_nonneg (by linarith) hseg0
      have ht'1 : (nt - acc) / seg ≤ 1 := by
        rw [div_le_one hsegpos]
        linarith
      have hE1 := resampleEmit_tail a dx dy s acc hs n (nt + s) ((nt - acc) / seg)
        ht'0 ht'1 (by
          rw [← hseg, div_mul_cancel₀ _ (ne_of_gt hsegpos)]
          linarith)
      rw [← hseg] at hE1
      rw [path_length_cons_cons, getLastD_cons_cons]
      have hfirst : segLen P (a.1 + (nt - acc) / seg * dx, a.2 + (nt - acc) / seg * dy) ≤
          segLen P a + (nt - acc) / seg * seg := by
        calc segLen P (a.1 + (nt - acc) / seg * dx, a.2 + (nt - acc) / seg * dy)
            ≤ segLen P a + segLen a (a.1 + (nt - acc) / seg * dx, a.2 + (nt - acc) / seg * dy) :=
              segLen_triangle _ _ _
          _ = segLen P a + (nt - acc) / seg * seg := by
              rw [segLen_from_base, abs_of_nonneg ht'0, ← hseg]
      have hE1' : path_length ((a.1 + (nt - acc) / seg * dx, a.2 + (nt - acc) / seg * dy) ::
            (resampleEmit a dx dy seg acc s (nt + s) n).1) +
          segLen (((a.1 + (nt - acc) / seg * dx, a.2 + (nt - acc) / seg * dy) ::
              (resampleEmit a dx dy seg acc s (nt + s) n).1).getLastD (0, 0))
            (a.1 + dx, a.2 + dy) = seg - (nt - acc) / seg * seg := by
        linear_combination hE1
      linarith [hE1', hfirst]
    · rw [resampleEmit, if_neg hc]
      exact hbase P

theorem resampleWalk_bound (s : ℝ) (np : ℤ) (hs : 0 < s) :
    ∀ (wl : List (ℝ × ℝ)) (acc nt : ℝ) (result : List (ℝ × ℝ)),
      result ≠ [] →
      path_length result + segLen (result.getLastD (0, 0)) (wl.headD (0, 0)) ≤ acc →
      (acc < nt ∨ np - 1 ≤ (result.length : ℤ)) →
      resampleWalk s np wl acc nt result ≠ [] ∧
      path_length (resampleWalk s np wl acc nt result) +
        segLen ((resampleWalk s np wl acc nt result).getLastD (0, 0))
          (wl.getLastD (0, 0)) ≤
        acc + path_length wl := by
  intro wl
  induction wl with
  | nil =>
    intro acc nt result hres hinv _
    refine ⟨hres, ?_⟩
    rw [show resampleWalk s np [] acc nt result = result from rfl, path_length_nil]
    rw [List.headD_nil] at hinv
    rw [List.getLastD_nil]
    linarith
  | cons a t ih =>
    cases t with
    | nil =>
      intro acc nt result hres hinv _
      refine ⟨hres, ?_⟩
      rw [show resampleWalk s np [a] acc nt result = result from rfl, path_length_single]
      rw [List.headD_cons] at hinv
      rw [List.getLastD_cons, List.getLastD_nil]
      linarith
    | cons b rest =>
      intro acc nt result hres hinv hside
      rw [List.headD_cons] at hinv
      rw [resampleWalk]
      set dx := b.1 - a.1 with hdx
      set dy := b.2 - a.2 with hdy
      set seg := Real.sqrt (dx * dx + dy * dy) with hseg
      set fuel := (np - 1 - (result.length : ℤ)).toNat with hfuel
      set em := (resampleEmit a dx dy seg acc s nt fuel).1 with hem
      set nt2 := (resampleEmit a dx dy seg acc s nt fuel).2 with hnt2
      have hseg0 : 0 ≤ seg := Real.sqrt_nonneg _
      have hseg_ab : segLen a b = seg := by rw [segLen, hseg]
      have hb : ((a.1 + dx, a.2 + dy) : ℝ × ℝ) = b := by
        rw [hdx, hdy]
        exact Prod.ext (by ring) (by ring)
      have hP : result.getLastD (0, 0) = (result.getLastD (0, 0)) := rfl
      -- new invariant and side condition
      have hstep : path_length (result ++ em) +
          segLen ((result ++ em).getLastD (0, 0)) b ≤ acc + seg ∧
          (acc + seg < nt2 ∨ np - 1 ≤ ((result ++ em).length : ℤ)) := by
        rcases hside with hlt | hbud
        · -- budget available or not, but acc < nt: use the emit bound
          have hE2 := resampleEmit_bound a dx dy acc s hs fuel nt
            (result.getLastD (0, 0)) hlt
          rw [← hem, hb] at hE2
          have hsplit := path_length_append result em (0, 0) hres
          have hlast : (result ++ em).getLastD (0, 0) =
              (result.getLastD (0, 0) :: em).getLastD (0, 0) := by
            rw [getLastD_append, List.getLastD_cons]
          constructor
          · rw [hsplit, hlast]
            linarith
          · rcases resampleEmit_budget a dx dy seg acc s fuel nt with hlen | hnt
            · right
              rw [List.length_append, ← hem] at *
              rw [hlen]
              omega
            · left
              rw [← hnt2] at hnt
              exact hnt
        · -- budget exhausted: fuel = 0, em = [], nt2 = nt
          have hf0 : fuel = 0 := by omega
          have hem0 : em = [] := by rw [hem, hf0]; rfl
          have hnt0 : nt2 = nt := by rw [hnt2, hf0]; rfl
          constructor
          · rw [hem0, List.append_nil]
            calc path_length result + segLen (result.getLastD (0, 0)) b
                ≤ path_length result + (segLen (result.getLastD (0, 0)) a + segLen a b) :=
                  add_le_add_left (segLen_triangle _ _ _) _
              _ ≤ acc + seg := by rw [hseg_ab]; linarith
          · right
            rw [hem0, List.append_nil]
            exact hbud
      have hrec := ih (acc + seg) nt2 (result ++ em) (by simp [hres]) (by
          rw [List.headD_cons]
          exact hstep.1) hstep.2
      refine ⟨hrec.1, ?_⟩
      rw [getLastD_cons_cons, path_length_cons_cons, hseg_ab]
      calc path_length (resampleWalk s np (b :: rest) (acc + seg) nt2 (result ++ em)) +
          segLen ((resampleWalk s np (b :: rest) (acc + seg) nt2 (result ++ em)).getLastD (0, 0))
            ((b :: rest).getLastD (0, 0))
          ≤ (acc + seg) + path_length (b :: rest) := hrec.2
        _ = acc + (seg + path_length (b :: rest)) := by ring

/-- **C5 (amended)**: for every target spacing `s > 0`, the length of the
resampled path never exceeds the length of the original path (each output
point lies on the polyline at a non-decreasing arc position, so chords can
only cut length).  The original two-sided bound fails: the deficit can
exceed one `target_spacing` (see the counterexample). -/
theorem C5_resample_length_never_exceeds (w : List (ℝ × ℝ)) (s : ℝ) (hs : 0 < s) :
    path_length (resample_path w s) ≤ path_length w := by
  rw [resample_path]
  by_cases hlen : w.length < 2
  · rw [if_pos hlen]
  · rw [if_neg hlen]
    cases w with
    | nil => simp at hlen
    | cons a t =>
      dsimp only
      have hW := resampleWalk_bound s
        (max 2 (truncToInt (path_length (a :: t) / s) + 1)) hs (a :: t) 0 s
        [(a :: t).getD 0 (0, 0)] (by simp)
        (by
          rw [List.headD_cons, List.getD_cons_zero]
          rw [path_length_single, List.getLastD_cons, List.getLastD_nil, segLen_self]
          norm_num)
        (Or.inl hs)
      set out := resampleWalk s (max 2 (truncToInt (path_length (a :: t) / s) + 1))
        (a :: t) 0 s [(a :: t).getD 0 (0, 0)] with hout
      obtain ⟨hne, hbound⟩ := hW
      rw [zero_add] at hbound
      split
      · rw [path_length_append out [(a :: t).getLastD (0, 0)] (0, 0) hne]
        rw [path_length_cons_cons, path_length_single]
        linarith
      · calc path_length out
            ≤ path_length out + segLen (out.getLastD (0, 0)) ((a :: t).getLastD (0, 0)) := by
              linarith [segLen_nonneg (out.getLastD (0, 0)) ((a :: t).getLastD (0, 0))]
          _ ≤ path_length (a :: t) := hbound

theorem resampleEmit_zero (a : ℝ × ℝ) (dx dy seg acc s nt : ℝ) :
    resampleEmit a dx dy seg acc s nt 0 = ([], nt) := rfl

theorem resampleWalk_single (s : ℝ) (np : ℤ) (x : ℝ × ℝ) (acc nt : ℝ)
    (res : List (ℝ × ℝ)) : resampleWalk s np [x] acc nt res = res := rfl

/-- **C5 counterexample**: for the path `[(0,0), (0,1), (0,0)]` (length 2)
and `target_spacing = 3/2`, `resample_path` returns the single point
`(0,0)` (its budget of `max(2, ⌊2/(3/2)⌋+1) = 2` points leaves no room for
interior samples, and the final waypoint is not appended because its
coordinates equal the first point's), so the length error is `2 > 3/2`. -/
theorem C5_resample_length_error_counterexample :
    ¬ (|path_length (resample_path [((0:ℝ), (0:ℝ)), (0, 1), (0, 0)] (3/2)) -
        path_length [((0:ℝ), (0:ℝ)), (0, 1), (0, 0)]| ≤ 3/2) := by
  have hseg1 : segLen ((0:ℝ), (0:ℝ)) (0, 1) = 1 := by
    rw [segLen]
    norm_num [Real.sqrt_one]
  have hseg2 : segLen ((0:ℝ), (1:ℝ)) (0, 0) = 1 := by
    rw [segLen]
    norm_num [Real.sqrt_one]
  have hpl : path_length [((0:ℝ), (0:ℝ)), (0, 1), (0, 0)] = 2 := by
    rw [path_length_cons_cons, path_length_cons_cons, path_length_single,
      hseg1, hseg2]
    norm_num
  have hnum : max 2 (truncToInt ((2:ℝ) / (3/2)) + 1) = 2 := by
    rw [truncToInt]
    norm_num
  have hwalk : resampleWalk (3/2) 2 [((0:ℝ), (0:ℝ)), (0, 1), (0, 0)] 0 (3/2)
      [((0:ℝ), (0:ℝ))] = [((0:ℝ), (0:ℝ))] := by
    rw [resampleWalk]
    norm_num [Real.sqrt_one, resampleEmit_zero]
    rw [resampleWalk]
    norm_num [Real.sqrt_one, resampleEmit_zero]
    rw [resampleWalk_single]
  have hres : resample_path [((0:ℝ), (0:ℝ)), (0, 1), (0, 0)] (3/2) =
      [((0:ℝ), (0:ℝ))] := by
    rw [resample_path, if_neg (by norm_num)]
    dsimp only
    rw [hpl, hnum, List.getD_cons_zero, hwalk]
    rw [if_neg (by norm_num [List.getLastD_cons, List.getLastD_nil])]
  rw [hres, hpl, path_length_single]
  norm_num

/-- **C5 (amended) witness**: the bound applied to a concrete two-point
path with spacing `1`. -/
theorem C5_resample_length_never_exceeds_witness :
    (0 : ℝ) < 1 ∧
    path_length (resample_path [((0:ℝ), (0:ℝ)), (1, 0)] 1) ≤
      path_length [((0:ℝ), (0:ℝ)), (1, 0)] :=
  ⟨zero_lt_one, C5_resample_length_never_exceeds [((0:ℝ), (0:ℝ)), (1, 0)] 1 zero_lt_one⟩

end AgentFleet
